import Mathlib

/-!
Shallow embedding of the KUCCPS dashboard's tabular engine
(`src/kuccps_dashboard.py`): the keyword department classifier,
schema normalization (application-day parsing, department assignment,
duplicate removal), the conjunctive sidebar filter, the percentage
transform, the top-N sliders, and the dense day-by-programme reindex.
Programme names and cells are modelled as lists of characters; pandas
null cells are modelled as `Option`; counts are natural numbers and
percentages exact rationals.
-/

namespace Dashboard

/-- A Python string, modelled as its list of characters. -/
abbrev Str : Type := List Char

/-- Python `str.lower`, character by character (`name = str(x).lower()`). -/
def lowerStr (s : Str) : Str := s.map Char.toLower

/-- Bool test that `n` is an initial segment of `h` (helper for the
Python substring operator `in`). -/
def startsWithB : Str → Str → Bool
  | [], _ => true
  | _ :: _, [] => false
  | a :: as, b :: bs => a == b && startsWithB as bs

/-- Python `needle in hay` on strings: `needle` occurs contiguously in `hay`. -/
def containsSub (needle : Str) : Str → Bool
  | [] => needle.isEmpty
  | c :: rest => startsWithB needle (c :: rest) || containsSub needle rest

/-- The ordered keyword taxonomy from `categorize_programme`
(src/kuccps_dashboard.py lines 88-113), transcribed pair by pair. -/
def taxonomy : List (List String × String) :=
  [ (["nursing", "medicine", "surgery", "clinical", "physiotherapy", "pharmacy", "dental",
      "public health", "medical", "nutrition", "biomedical", "anatomy", "physiology",
      "radiology", "midwifery"], "Health Sciences"),
    (["engineering", "civil", "mechanical", "electrical", "mechatronic", "telecom",
      "automotive", "chemical", "mining", "manufacturing", "industrial", "aerospace",
      "petroleum", "energy", "environmental engineering"], "Engineering"),
    (["computer", "ict", "information technology", "cloud", "software", "data science",
      "ai", "cyber", "informatics", "it", "computing", "machine learning", "robotics",
      "network"], "ICT / Tech"),
    (["commerce", "business", "accounting", "procurement", "finance", "marketing",
      "management", "entrepreneurship", "economics", "human resource", "insurance",
      "banking", "audit", "supply chain"], "Business"),
    (["law", "criminology", "justice", "legal", "forensic"], "Law & Humanities"),
    (["education", "teaching", "pedagogy", "curriculum", "teacher", "instructional",
      "educational"], "Education"),
    (["agric", "horticulture", "animal", "crop", "food science", "agribusiness", "soil",
      "dairy", "veterinary", "forestry", "fisheries", "plant", "agronomy"], "Agriculture"),
    (["tourism", "hospitality", "hotel", "leisure", "travel", "event management",
      "culinary"], "Hospitality & Tourism"),
    (["architecture", "planning", "urban", "landscape", "built environment",
      "construction", "quantity survey", "interior design"], "Architecture & Planning"),
    (["statistics", "mathematics", "math", "actuarial", "quantitative", "applied math",
      "statistical"], "Math & Statistics"),
    (["science", "biology", "chemistry", "physics", "biochemistry", "microbiology",
      "zoology", "botany", "geology", "environmental", "ecology", "genetics",
      "astronomy", "marine science"], "Pure & Applied Sciences"),
    (["arts", "music", "fine art", "design", "drama", "theatre", "literature",
      "philosophy", "history", "language", "linguistics", "communication", "media",
      "film", "animation", "creative"], "Arts & Humanities"),
    (["social work", "sociology", "psychology", "community", "development",
      "anthropology", "counseling", "public administration", "international relations",
      "political science"], "Social Sciences"),
    (["sports", "physical education", "recreation", "exercise", "fitness", "sport"],
      "Sports & Recreation"),
    (["aviation", "aeronautical", "pilot", "aircraft", "flight"], "Aviation"),
    (["marine", "maritime", "ocean", "fisheries", "aquatic", "naval"],
      "Marine & Fisheries"),
    (["library", "records", "information science", "archival", "documentation"],
      "Library & Information Science"),
    (["logistics", "supply chain", "transport", "shipping", "freight", "warehousing"],
      "Logistics & Transport"),
    (["fashion", "textile", "garment", "apparel", "clothing", "costume"],
      "Fashion & Textile"),
    (["journalism", "mass communication", "broadcast", "public relations",
      "media studies"], "Media & Communication"),
    (["real estate", "property", "land management", "valuation"],
      "Real Estate & Land Management"),
    (["military", "defense", "security", "peace studies"], "Security & Defense"),
    (["environment", "conservation", "sustainability", "climate"],
      "Environmental Studies"),
    (["food", "nutrition", "dietetics", "culinary"], "Food & Nutrition") ]

/-- The matching loop of `categorize_programme`: walk the taxonomy pairs in
declared order and return the label of the first pair with a keyword
occurring in `name`; `"Other"` if none matches. -/
def firstMatch : List (List String × String) → Str → String
  | [], _ => "Other"
  | (kws, dept) :: rest, name =>
    if kws.any (fun k => containsSub k.toList name) then dept else firstMatch rest name

/-- `categorize_programme` (src/kuccps_dashboard.py lines 84-117): `pd.isna`
input gives `"Other"`, otherwise the stringified input is lower-cased and
matched against the taxonomy in order. -/
def categorize_programme : Option String → String
  | none => "Other"
  | some pn => firstMatch taxonomy (lowerStr pn.toList)

/-- The full set of department labels the classifier can produce: the 24
taxonomy labels plus the fallback. -/
def allDepartments : List String := taxonomy.map Prod.snd ++ ["Other"]

/-- `DataFrame.drop_duplicates` kernel: keep the first occurrence of each
element, preserving the order of survivors (`seen` accumulates kept rows). -/
def dropDupAux [DecidableEq α] : List α → List α → List α
  | _, [] => []
  | seen, x :: xs => if x ∈ seen then dropDupAux seen xs else x :: dropDupAux (x :: seen) xs

/-- `df.drop_duplicates()` (src/kuccps_dashboard.py line 178). -/
def drop_duplicates [DecidableEq α] (l : List α) : List α := dropDupAux [] l

/-- A raw input row: the `programme_name` cell (possibly null, or the
column may be absent) plus the remaining cells, opaque to normalization. -/
structure RawRow where
  programme_name : Option String
  rest : List (Option String)
deriving DecidableEq

/-- A normalized row: the raw cells plus the derived `department` column. -/
structure NormRow where
  programme_name : Option String
  rest : List (Option String)
  department : String
deriving DecidableEq

/-- Department assignment (src/kuccps_dashboard.py lines 171-175): apply the
classifier when the `programme_name` column exists, else `"Other"`. -/
def assignDepartment (hasProg : Bool) (r : RawRow) : NormRow :=
  ⟨r.programme_name, r.rest,
    if hasProg then categorize_programme r.programme_name else "Other"⟩

/-- The department-assignment and duplicate-removal steps of normalization
(src/kuccps_dashboard.py lines 171-178). -/
def normalizeRows (hasProg : Bool) (rows : List RawRow) : List NormRow :=
  drop_duplicates (rows.map (assignDepartment hasProg))

/-! ### Application-day parsing (src/kuccps_dashboard.py lines 160-169) -/

/-- The leading run of digits of a string (empty if it starts with a
non-digit). -/
def leadingDigits : Str → Str
  | [] => []
  | c :: rest => if c.isDigit then c :: leadingDigits rest else []

/-- `Series.str.extract(r'(\d+)')`: the first maximal run of digits in the
cell's string form, or null when the string has no digit. -/
def firstDigitRun : Str → Option Str
  | [] => none
  | c :: rest => if c.isDigit then some (c :: leadingDigits rest) else firstDigitRun rest

/-- Decimal value of a digit string. -/
def digitsToNat (s : Str) : ℕ := s.foldl (fun acc c => 10 * acc + (c.toNat - 48)) 0

/-- The parsed `application_day` cell: extract the first digit run and read
it as a number; cells with no digit run become null. -/
def parseDay (s : Str) : Option ℕ := (firstDigitRun s).map digitsToNat

/-- The same parse viewed at the `astype(float)` step (exact rational in
place of the float), on which pandas runs the `float.is_integer` test that
decides the `Int64` cast. -/
def parseDayQ (s : Str) : Option ℚ := (firstDigitRun s).map (fun d => ((digitsToNat d : ℕ) : ℚ))

/-! ### Sidebar filters (src/kuccps_dashboard.py lines 196-251, 599-610) -/

/-- The eight set-filterable fields wired up in the sidebar. -/
inductive FField
  | sponsor | stage | ptype | programme | institution | grade | cycle | department
deriving DecidableEq

/-- Enumeration of the eight filterable fields, in sidebar order. -/
def FField.fields : List FField :=
  [.sponsor, .stage, .ptype, .programme, .institution, .grade, .cycle, .department]

/-- A dataset row as the filter engine sees it: one possibly-null cell per
filterable field, plus the parsed `application_day` cell. -/
structure DRow where
  vals : FField → Option String
  application_day : Option ℤ

/-- Python `str(x)` on a cell: pandas `astype(str)` renders a null cell as
the string `"nan"`. -/
def strOfCell : Option String → String
  | none => "nan"
  | some s => s

/-- One field's contribution to the filter: an empty selection list adds no
condition (the `if selected:` guard), a nonempty one adds
`astype(str).isin(selected)`. -/
def fieldPass (sel : FField → List String) (r : DRow) (f : FField) : Bool :=
  (sel f).isEmpty || (sel f).contains (strOfCell (r.vals f))

/-- The conjunction `reduce(operator.and_, filter_conditions)` over all
eight fields. -/
def rowPasses (sel : FField → List String) (r : DRow) : Bool :=
  FField.fields.all (fieldPass sel r)

/-- `filtered_df = df[reduce(operator.and_, filter_conditions)]`, falling
back to the whole frame when no condition was added
(src/kuccps_dashboard.py lines 248-251). -/
def applyFilters (df : List DRow) (sel : FField → List String) : List DRow :=
  df.filter (rowPasses sel)

/-- The default selection: every multiselect empty, so no field restricted. -/
def emptySelection : FField → List String := fun _ => []

/-- The application-day range filter (src/kuccps_dashboard.py lines
607-610): `(day >= lo) & (day <= hi)`; a null day compares as false on
both sides and the row is dropped. -/
def dayRangeFilter (df : List DRow) (lo hi : ℤ) : List DRow :=
  df.filter (fun r =>
    match r.application_day with
    | none => false
    | some d => decide (lo ≤ d) && decide (d ≤ hi))

/-! ### Percentage transform (src/kuccps_dashboard.py lines 279-286,
842-845, 913-916, 1067-1070) -/

/-- Division of `a` by `b` rounded to the nearest integer, halves to the
even integer (the rounding pandas `Series.round` applies), meaningful for
`b > 0`. -/
def roundHalfEvenDiv (a b : ℤ) : ℤ :=
  if 2 * (a % b) < b then a / b
  else if b < 2 * (a % b) then a / b + 1
  else if (a / b) % 2 = 0 then a / b else a / b + 1

/-- `round(count / total * 100, 2)` in hundredths of a percent: the
rational `count / total * 100` rounded to two decimals equals
`pctHundredths count total / 100`.  Exact integer arithmetic stands in for
the float arithmetic of pandas. -/
def pctHundredths (c T : ℕ) : ℤ := roundHalfEvenDiv ((c : ℤ) * 10000) (T : ℤ)

/-- The total a percentage is taken against: `counts["count"].sum()`. -/
def totalCount (rows : List (String × ℕ)) : ℕ := (rows.map Prod.snd).sum

/-- The guarded percentage transform (department and sponsorship charts):
when the total is zero every percentage is set to 0, otherwise each row
gets `round(count / total * 100, 2)` (stored as an exact rational). -/
def addPercentage (rows : List (String × ℕ)) : List (String × ℕ × ℚ) :=
  if totalCount rows = 0 then rows.map (fun r => (r.1, r.2, (0 : ℚ)))
  else rows.map (fun r => (r.1, r.2, (pctHundredths r.2 (totalCount rows) : ℚ) / 100))

/-- The unguarded percentage transform (mean-grade, placement-cycle and
application-stage charts): it divides by the total unconditionally, so a
zero total over a nonempty table would not produce rational percentages
(pandas yields non-finite values there); that outcome is modelled as
`none`. -/
def addPercentageUnguarded (rows : List (String × ℕ)) : Option (List (String × ℕ × ℚ)) :=
  if totalCount rows = 0 ∧ rows ≠ [] then none
  else some (rows.map (fun r => (r.1, r.2, (pctHundredths r.2 (totalCount rows) : ℚ) / 100)))

/-- `Series.value_counts` on the stringified column: one entry per distinct
value in first-encountered order, counting its occurrences. -/
def value_counts (l : List String) : List (String × ℕ) :=
  (drop_duplicates l).map (fun v => (v, l.count v))

/-! ### Dense reindex for the animated day-series
(src/kuccps_dashboard.py lines 646-652) -/

/-- `reindex(MultiIndex.from_product([all_days, all_programmes]), fill_value=0)`:
one row per (day, programme) pair of the product, taking the grouped count
when the pair is present and 0 otherwise. -/
def denseReindex (grouped : List ((ℤ × String) × ℕ)) :
    List ℤ → List String → List ((ℤ × String) × ℕ)
  | [], _ => []
  | d :: ds, cats =>
    cats.map (fun c => ((d, c), (List.lookup (d, c) grouped).getD 0))
      ++ denseReindex grouped ds cats

/-! ### Top-N selection (src/kuccps_dashboard.py lines 439-452, 970-986) -/

/-- The ranking order used by `nlargest`: descending by count. -/
def countDesc (a b : String × ℕ) : Prop := b.2 ≤ a.2

instance : DecidableRel countDesc := fun a b => Nat.decLe b.2 a.2

instance : IsTotal (String × ℕ) countDesc := ⟨fun a b => Nat.le_total b.2 a.2⟩

instance : IsTrans (String × ℕ) countDesc := ⟨fun _ _ _ h1 h2 => le_trans h2 h1⟩

/-- The per-department programmes top-N site
(src/kuccps_dashboard.py lines 448-452): `nlargest(top_n, "student_count")`
with its default `keep="first"` — sort descending by count keeping
equal-count rows in first-encountered order (a stable sort) and take the
first `n`. -/
def topNGroups (n : ℕ) (l : List (String × ℕ)) : List (String × ℕ) :=
  (List.insertionSort countDesc l).take n

/-- The institutions top-N site (src/kuccps_dashboard.py lines 979-986)
sorts with `sort_values(by="student_count", ascending=False)` before
`head(n)`; pandas' default quicksort is unstable and its descending order
is produced by reversing the ascending argsort, so the order of tied
counts is implementation-defined.  The site is therefore modelled only
through its specification: the frame the code takes `head(n)` of is some
count-descending permutation of the grouped counts. -/
def descSortSpec (s l : List (String × ℕ)) : Prop :=
  s.Perm l ∧ List.Sorted countDesc s

/-- The upper bound of the institutions top-N slider
(src/kuccps_dashboard.py lines 970-975):
`max_value = max_top_n if max_top_n >= 3 else 3` with
`max_top_n = min(30, nunique)`. -/
def topNInstSliderMax (distinct : ℕ) : ℕ := max (min 30 distinct) 3

/-- The values of N the institutions slider lets the user request: its
`min_value` is hard-coded to 3 and its `max_value` to
`topNInstSliderMax`. -/
def instSliderOk (distinct n : ℕ) : Prop := 3 ≤ n ∧ n ≤ topNInstSliderMax distinct

/-- The upper bound of the per-department programmes top-N slider
(src/kuccps_dashboard.py lines 439-443), with
`max_top_n = min(50, max per-department programme count)`. -/
def topNProgSliderMax (maxPerDept : ℕ) : ℕ := max (min 50 maxPerDept) 3

/-! ### Sample data used by the witness theorems -/

/-- A row that is Public-sponsored, Verified, with application day 2. -/
def wRow1 : DRow :=
  { vals := fun f => match f with
      | .sponsor => some "Public"
      | .stage => some "Verified"
      | _ => none,
    application_day := some 2 }

/-- A row whose `application_day` cell failed to parse. -/
def wNullDayRow : DRow := { vals := fun _ => none, application_day := none }

/-- A selection restricting only the sponsor field. -/
def wSelSponsor : FField → List String := fun f =>
  match f with
  | .sponsor => ["Public"]
  | _ => []

/-- A selection restricting only the application-stage field. -/
def wSelStage : FField → List String := fun f =>
  match f with
  | .stage => ["Verified"]
  | _ => []

/-- The character set a numeric (non-string) pandas cell can render to
under `str(...)`: digits, sign, decimal point, exponent marker, and the
date separators. -/
def numericChars : Str := "0123456789.+-e :/".toList

/-! ## Helper lemmas -/

theorem find?_cons_pos {α : Type} (p : α → Bool) (a : α) (l : List α) (h : p a = true) :
    List.find? p (a :: l) = some a := by
  simp [List.find?, h]

theorem find?_cons_neg {α : Type} (p : α → Bool) (a : α) (l : List α) (h : p a = false) :
    List.find? p (a :: l) = List.find? p l := by
  simp [List.find?, h]

theorem startsWithB_subset : ∀ (n h : Str), startsWithB n h = true → ∀ c ∈ n, c ∈ h
  | [], _, _, c, hc => absurd hc (List.not_mem_nil c)
  | _ :: _, [], hF, _, _ => by simp [startsWithB] at hF
  | a :: as, b :: bs, hT, c, hc => by
    rw [startsWithB, Bool.and_eq_true, beq_iff_eq] at hT
    rcases List.mem_cons.mp hc with rfl | hmem
    · exact hT.1 ▸ List.mem_cons_self b bs
    · exact List.mem_cons_of_mem b (startsWithB_subset as bs hT.2 c hmem)

theorem containsSub_subset (n : Str) :
    ∀ h : Str, containsSub n h = true → ∀ c ∈ n, c ∈ h := by
  intro h
  induction h with
  | nil =>
    intro hT c hc
    rw [containsSub, List.isEmpty_iff] at hT
    subst hT
    exact absurd hc (List.not_mem_nil c)
  | cons b bs ih =>
    intro hT c hc
    rw [containsSub, Bool.or_eq_true] at hT
    rcases hT with hT | hT
    · exact startsWithB_subset n (b :: bs) hT c hc
    · exact List.mem_cons_of_mem b (ih hT c hc)

theorem firstMatch_mem (m : List (List String × String)) (name : Str) :
    firstMatch m name ∈ m.map Prod.snd ++ ["Other"] := by
  induction m with
  | nil => simp [firstMatch]
  | cons p rest ih =>
    obtain ⟨kws, dept⟩ := p
    by_cases hm : (kws.any (fun k => containsSub k.toList name)) = true
    · rw [firstMatch, if_pos hm]
      exact List.mem_append_left _ (by simp)
    · rw [firstMatch, if_neg hm]
      rcases List.mem_append.mp ih with h2 | h2
      · exact List.mem_append_left _ (List.mem_cons_of_mem _ h2)
      · exact List.mem_append_right _ h2

theorem categorize_mem (x : Option String) : categorize_programme x ∈ allDepartments := by
  cases x with
  | none =>
    exact List.mem_append_right _ (List.mem_singleton.mpr rfl)
  | some pn =>
    exact firstMatch_mem taxonomy (lowerStr pn.toList)

theorem firstMatch_no_match (m : List (List String × String)) (name : Str)
    (hno : ∀ p ∈ m, ∀ k ∈ p.1, containsSub k.toList name = false) :
    firstMatch m name = "Other" := by
  induction m with
  | nil => rfl
  | cons p rest ih =>
    obtain ⟨kws, dept⟩ := p
    have hany : (kws.any (fun k => containsSub k.toList name)) = false := by
      rw [Bool.eq_false_iff]
      intro hT
      obtain ⟨k, hk, hkT⟩ := List.any_eq_true.mp hT
      rw [hno (kws, dept) (List.mem_cons_self _ _) k hk] at hkT
      exact Bool.false_ne_true hkT
    have hnot : ¬ ((kws.any (fun k => containsSub k.toList name)) = true) := by
      rw [hany]
      decide
    rw [firstMatch, if_neg hnot]
    exact ih (fun p hp => hno p (List.mem_cons_of_mem _ hp))

theorem firstMatch_eq_findD (m : List (List String × String)) (name : Str) :
    firstMatch m name =
      ((m.find? (fun p => p.1.any (fun k => containsSub k.toList name))).map Prod.snd).getD
        "Other" := by
  induction m with
  | nil => rfl
  | cons p rest ih =>
    obtain ⟨kws, dept⟩ := p
    by_cases hm : (kws.any (fun k => containsSub k.toList name)) = true
    · rw [firstMatch, if_pos hm]
      have hm2 : (fun p : List String × String =>
          p.1.any (fun k => containsSub k.toList name)) (kws, dept) = true := hm
      rw [find?_cons_pos (fun p : List String × String =>
        p.1.any (fun k => containsSub k.toList name)) (kws, dept) rest hm2]
      rfl
    · rw [firstMatch, if_neg hm]
      rw [Bool.not_eq_true] at hm
      have hm2 : (fun p : List String × String =>
          p.1.any (fun k => containsSub k.toList name)) (kws, dept) = false := hm
      rw [find?_cons_neg (fun p : List String × String =>
        p.1.any (fun k => containsSub k.toList name)) (kws, dept) rest hm2]
      exact ih

theorem mem_of_mem_dropDupAux [DecidableEq α] :
    ∀ (seen l : List α) (x : α), x ∈ dropDupAux seen l → x ∈ l := by
  intro seen l
  induction l generalizing seen with
  | nil => intro x hx; simp [dropDupAux] at hx
  | cons a as ih =>
    intro x hx
    by_cases hseen : a ∈ seen
    · rw [dropDupAux, if_pos hseen] at hx
      exact List.mem_cons_of_mem a (ih seen x hx)
    · rw [dropDupAux, if_neg hseen] at hx
      rcases List.mem_cons.mp hx with rfl | hmem
      · exact List.mem_cons_self x as
      · exact List.mem_cons_of_mem a (ih (a :: seen) x hmem)

theorem mem_of_mem_drop_duplicates [DecidableEq α] (l : List α) (x : α)
    (hx : x ∈ drop_duplicates l) : x ∈ l :=
  mem_of_mem_dropDupAux [] l x hx

theorem keywords_not_numeric :
    ∀ p ∈ taxonomy, ∀ k ∈ p.1, ∃ c ∈ k.toList, c ∉ numericChars := by decide

theorem numeric_toLower_fixed : ∀ c ∈ numericChars, Char.toLower c = c := by decide

theorem firstDigitRun_none_iff (s : Str) :
    firstDigitRun s = none ↔ s.all (fun c => !(c.isDigit)) = true := by
  induction s with
  | nil => simp [firstDigitRun]
  | cons c rest ih =>
    by_cases hd : c.isDigit <;> simp [firstDigitRun, hd, ih]

theorem parseDayQ_den_one (s : Str) :
    ((parseDayQ s).all (fun q => q.den == 1)) = true := by
  cases hf : firstDigitRun s with
  | none => simp [parseDayQ, hf, Option.all]
  | some d => simp [parseDayQ, hf, Option.all, Rat.den_natCast]

theorem fieldPass_append (s1 s2 : FField → List String) (r : DRow) (f : FField)
    (h : s1 f = [] ∨ s2 f = []) :
    (fieldPass (fun g => s1 g ++ s2 g) r f = true) ↔
      (fieldPass s1 r f = true ∧ fieldPass s2 r f = true) := by
  rcases h with h | h <;> simp [fieldPass, h]

theorem rowPasses_append (s1 s2 : FField → List String) (r : DRow)
    (hdisj : ∀ f, s1 f = [] ∨ s2 f = []) :
    (rowPasses (fun g => s1 g ++ s2 g) r = true) ↔
      (rowPasses s1 r = true ∧ rowPasses s2 r = true) := by
  simp only [rowPasses, List.all_eq_true]
  constructor
  · intro h
    exact ⟨fun f hf => ((fieldPass_append s1 s2 r f (hdisj f)).mp (h f hf)).1,
      fun f hf => ((fieldPass_append s1 s2 r f (hdisj f)).mp (h f hf)).2⟩
  · rintro ⟨h1, h2⟩ f hf
    exact (fieldPass_append s1 s2 r f (hdisj f)).mpr ⟨h1 f hf, h2 f hf⟩

theorem lookup_eq_none_of_not_mem_keys {β : Type} (k : ℤ × String)
    (grouped : List ((ℤ × String) × β)) (h : k ∉ grouped.map Prod.fst) :
    List.lookup k grouped = none := by
  induction grouped with
  | nil => rfl
  | cons e rest ih =>
    obtain ⟨k0, v0⟩ := e
    have hne : k ≠ k0 := fun he => h (by simp [he])
    have hbeq : (k == k0) = false := beq_eq_false_iff_ne.mpr hne
    simp only [List.lookup, hbeq]
    exact ih (fun hm => h (List.mem_cons_of_mem _ hm))

theorem denseReindex_key_day (grouped : List ((ℤ × String) × ℕ)) :
    ∀ (days : List ℤ) (cats : List String) (p : ℤ × String),
      p ∈ (denseReindex grouped days cats).map Prod.fst → p.1 ∈ days := by
  intro days
  induction days with
  | nil => intro cats p hp; simp [denseReindex] at hp
  | cons d ds ih =>
    intro cats p hp
    rw [denseReindex, List.map_append] at hp
    rcases List.mem_append.mp hp with hp | hp
    · rw [List.map_map] at hp
      obtain ⟨c, _, rfl⟩ := List.mem_map.mp hp
      exact List.mem_cons_self d ds
    · exact List.mem_cons_of_mem d (ih cats p hp)

theorem roundHalfEvenDiv_close (a b : ℤ) (hb : 0 < b) :
    |(roundHalfEvenDiv a b : ℚ) - (a : ℚ) / (b : ℚ)| ≤ 1 / 2 := by
  have hbq : (0 : ℚ) < (b : ℚ) := by exact_mod_cast hb
  have hr0 : (0 : ℤ) ≤ a % b := Int.emod_nonneg a (ne_of_gt hb)
  have hrb : a % b < b := Int.emod_lt_of_pos a hb
  have hab : (a : ℚ) = (b : ℚ) * ((a / b : ℤ) : ℚ) + ((a % b : ℤ) : ℚ) := by
    exact_mod_cast (Int.ediv_add_emod a b).symm
  have key : (a : ℚ) / (b : ℚ) = ((a / b : ℤ) : ℚ) + ((a % b : ℤ) : ℚ) / (b : ℚ) := by
    rw [hab]
    field_simp
    ring
  have hr0q : (0 : ℚ) ≤ ((a % b : ℤ) : ℚ) := by exact_mod_cast hr0
  have hrbq : ((a % b : ℤ) : ℚ) < (b : ℚ) := by exact_mod_cast hrb
  have hdiv0 : (0 : ℚ) ≤ ((a % b : ℤ) : ℚ) / (b : ℚ) := div_nonneg hr0q (le_of_lt hbq)
  have hdiv1 : ((a % b : ℤ) : ℚ) / (b : ℚ) < 1 := (div_lt_one hbq).mpr hrbq
  rw [roundHalfEvenDiv]
  split_ifs with h1 h2 h3
  · have h1q : 2 * ((a % b : ℤ) : ℚ) < (b : ℚ) := by exact_mod_cast h1
    have hhalf : ((a % b : ℤ) : ℚ) / (b : ℚ) ≤ 1 / 2 := by
      rw [div_le_iff₀ hbq]
      linarith
    rw [key, abs_le]
    constructor <;> linarith
  · have h2q : (b : ℚ) < 2 * ((a % b : ℤ) : ℚ) := by exact_mod_cast h2
    have hhalf : 1 / 2 ≤ ((a % b : ℤ) : ℚ) / (b : ℚ) := by
      rw [le_div_iff₀ hbq]
      linarith
    rw [key, abs_le]
    push_cast
    constructor <;> linarith
  · have heq : 2 * (a % b) = b := le_antisymm (not_lt.mp h2) (not_lt.mp h1)
    have heqq : 2 * ((a % b : ℤ) : ℚ) = (b : ℚ) := by exact_mod_cast heq
    have hhalf : ((a % b : ℤ) : ℚ) / (b : ℚ) = 1 / 2 := by
      rw [div_eq_iff (ne_of_gt hbq)]
      linarith
    rw [key, abs_le]
    constructor <;> linarith
  · have heq : 2 * (a % b) = b := le_antisymm (not_lt.mp h2) (not_lt.mp h1)
    have heqq : 2 * ((a % b : ℤ) : ℚ) = (b : ℚ) := by exact_mod_cast heq
    have hhalf : ((a % b : ℤ) : ℚ) / (b : ℚ) = 1 / 2 := by
      rw [div_eq_iff (ne_of_gt hbq)]
      linarith
    rw [key, abs_le]
    push_cast
    constructor <;> linarith

theorem pct_term_close (c T : ℕ) (hT : 0 < T) :
    |(pctHundredths c T : ℚ) / 100 - (c : ℚ) / (T : ℚ) * 100| ≤ 1 / 200 := by
  have h := roundHalfEvenDiv_close ((c : ℤ) * 10000) (T : ℤ) (by exact_mod_cast hT)
  have key : (((c : ℤ) * 10000 : ℤ) : ℚ) / ((T : ℤ) : ℚ) = (c : ℚ) / (T : ℚ) * 10000 := by
    push_cast
    ring
  rw [key] at h
  have heq : (pctHundredths c T : ℚ) / 100 - (c : ℚ) / (T : ℚ) * 100
      = ((pctHundredths c T : ℚ) - (c : ℚ) / (T : ℚ) * 10000) / 100 := by
    ring
  rw [heq, abs_div, abs_of_pos (show (0 : ℚ) < 100 by norm_num)]
  rw [pctHundredths]
  rw [div_le_div_iff₀ (by norm_num) (by norm_num)]
  nlinarith [h]

theorem sum_abs_sub_le {α : Type} (f g : α → ℚ) (ε : ℚ) :
    ∀ l : List α, (∀ x ∈ l, |f x - g x| ≤ ε) →
      |(l.map f).sum - (l.map g).sum| ≤ l.length * ε := by
  intro l
  induction l with
  | nil => simp
  | cons a as ih =>
    intro h
    have h1 := h a (List.mem_cons_self _ _)
    have h2 := ih (fun x hx => h x (List.mem_cons_of_mem _ hx))
    simp only [List.map_cons, List.sum_cons, List.length_cons]
    push_cast
    calc |f a + (as.map f).sum - (g a + (as.map g).sum)|
        = |(f a - g a) + ((as.map f).sum - (as.map g).sum)| := by ring_nf
      _ ≤ |f a - g a| + |(as.map f).sum - (as.map g).sum| := abs_add _ _
      _ ≤ ε + as.length * ε := add_le_add h1 h2
      _ = (as.length + 1) * ε := by ring

theorem sum_map_snd_mul (k : ℚ) :
    ∀ l : List (String × ℕ),
      (l.map (fun r => (r.2 : ℚ) * k)).sum = (((l.map Prod.snd).sum : ℕ) : ℚ) * k := by
  intro l
  induction l with
  | nil => simp
  | cons a as ih =>
    simp only [List.map_cons, List.sum_cons, ih]
    push_cast
    ring

theorem exact_pct_sum (rows : List (String × ℕ)) (hT : 0 < totalCount rows) :
    (rows.map (fun r => (r.2 : ℚ) / (totalCount rows : ℚ) * 100)).sum = 100 := by
  have hTq : (totalCount rows : ℚ) ≠ 0 := by
    exact_mod_cast Nat.cast_ne_zero.mpr (Nat.pos_iff_ne_zero.mp hT)
  have hfun : (fun r : String × ℕ => (r.2 : ℚ) / (totalCount rows : ℚ) * 100)
      = fun r : String × ℕ => (r.2 : ℚ) * (100 / (totalCount rows : ℚ)) := by
    funext r
    ring
  rw [hfun, sum_map_snd_mul]
  rw [show ((rows.map Prod.snd).sum : ℕ) = totalCount rows from rfl]
  field_simp

theorem value_counts_pos (l : List String) : ∀ e ∈ value_counts l, 0 < e.2 := by
  intro e he
  obtain ⟨v, hv, rfl⟩ := List.mem_map.mp he
  simpa using List.count_pos_iff.mpr (mem_of_mem_drop_duplicates l v hv)

theorem totalCount_zero_nil (l : List String) (h : totalCount (value_counts l) = 0) :
    value_counts l = [] := by
  cases hvc : value_counts l with
  | nil => rfl
  | cons e rest =>
    exfalso
    have hpos : 0 < e.2 := value_counts_pos l e (by rw [hvc]; exact List.mem_cons_self _ _)
    rw [totalCount, hvc, List.map_cons, List.sum_cons] at h
    omega

theorem orderedInsert_filter_eq (x : String × ℕ) (c : ℕ) :
    ∀ l : List (String × ℕ), x.2 = c →
      (List.orderedInsert countDesc x l).filter (fun y => y.2 == c)
        = x :: l.filter (fun y => y.2 == c) := by
  intro l
  induction l with
  | nil =>
    intro hx
    simp [List.orderedInsert, List.filter, hx]
  | cons b bs ih =>
    intro hx
    by_cases hr : countDesc x b
    · rw [List.orderedInsert, if_pos hr, List.filter_cons, if_pos (by simp [hx])]
    · rw [List.orderedInsert, if_neg hr]
      have hb : (b.2 == c) = false := by
        have hlt : c < b.2 := by
          rw [countDesc, not_le] at hr
          omega
        exact beq_eq_false_iff_ne.mpr (by omega)
      rw [List.filter_cons, if_neg (by simp [hb]), List.filter_cons, if_neg (by simp [hb])]
      exact ih hx

theorem orderedInsert_filter_ne (x : String × ℕ) (c : ℕ) :
    ∀ l : List (String × ℕ), x.2 ≠ c →
      (List.orderedInsert countDesc x l).filter (fun y => y.2 == c)
        = l.filter (fun y => y.2 == c) := by
  intro l
  have hx0 : ∀ hx : x.2 ≠ c, (x.2 == c) = false := fun hx => beq_eq_false_iff_ne.mpr hx
  induction l with
  | nil =>
    intro hx
    simp [List.orderedInsert, List.filter, hx0 hx]
  | cons b bs ih =>
    intro hx
    by_cases hr : countDesc x b
    · rw [List.orderedInsert, if_pos hr, List.filter_cons, if_neg (by simp [hx0 hx])]
    · rw [List.orderedInsert, if_neg hr, List.filter_cons, List.filter_cons]
      by_cases hb : (b.2 == c) = true
      · rw [if_pos (by simp [hb]), if_pos (by simp [hb]), ih hx]
      · rw [Bool.not_eq_true] at hb
        rw [if_neg (by simp [hb]), if_neg (by simp [hb]), ih hx]

theorem insertionSort_filter_stable (c : ℕ) :
    ∀ l : List (String × ℕ),
      (List.insertionSort countDesc l).filter (fun y => y.2 == c)
        = l.filter (fun y => y.2 == c) := by
  intro l
  induction l with
  | nil => rfl
  | cons x xs ih =>
    rw [List.insertionSort]
    by_cases hx : x.2 = c
    · rw [orderedInsert_filter_eq x c _ hx, ih, List.filter_cons, if_pos (by simp [hx])]
    · rw [orderedInsert_filter_ne x c _ hx, ih, List.filter_cons,
        if_neg (by simp [beq_eq_false_iff_ne.mpr hx])]

/-! ## Claim theorems -/

/-- Claim C9: applying the empty selection (every field's allowed-value
list empty) returns the dataset unchanged — an empty allowed-value list
contributes no restriction rather than excluding everything. -/
theorem empty_selection_no_restriction (df : List DRow) :
    applyFilters df emptySelection = df := by
  rw [applyFilters, List.filter_eq_self]
  intro r _
  simp [rowPasses, fieldPass, emptySelection, List.all_eq_true]

/-- Claim C4: field restrictions are conjunctive — for selections
restricting disjoint field sets (in particular any two single-field
selections on different fields, such as sponsor and stage), a row is in
the combined filtered view exactly when it is in each single filtered
view, so the combined view is the intersection of the two as row sets. -/
theorem filter_restrictions_conjunctive (df : List DRow) (s1 s2 : FField → List String)
    (hdisj : ∀ f, s1 f = [] ∨ s2 f = []) (r : DRow) :
    r ∈ applyFilters df (fun g => s1 g ++ s2 g) ↔
      (r ∈ applyFilters df s1 ∧ r ∈ applyFilters df s2) := by
  simp only [applyFilters, List.mem_filter]
  constructor
  · rintro ⟨hmem, hpass⟩
    have h := (rowPasses_append s1 s2 r hdisj).mp hpass
    exact ⟨⟨hmem, h.1⟩, ⟨hmem, h.2⟩⟩
  · rintro ⟨⟨hmem, h1⟩, ⟨-, h2⟩⟩
    exact ⟨hmem, (rowPasses_append s1 s2 r hdisj).mpr ⟨h1, h2⟩⟩

/-- Witness for C4 at a concrete dataset: a Public/Verified row, a
sponsor-only selection and a stage-only selection. -/
theorem filter_restrictions_conjunctive_witness :
    wRow1 ∈ applyFilters [wRow1] (fun g => wSelSponsor g ++ wSelStage g) ↔
      (wRow1 ∈ applyFilters [wRow1] wSelSponsor ∧ wRow1 ∈ applyFilters [wRow1] wSelStage) :=
  filter_restrictions_conjunctive [wRow1] wSelSponsor wSelStage
    (by intro f; cases f <;> simp [wSelSponsor, wSelStage]) wRow1

/-- Claim C10: whenever the application-day range filter runs, every row
whose `application_day` is null fails both comparisons and is dropped —
for any bounds, including the full observed range, so the filter is not a
no-op on data with unparseable day cells. -/
theorem day_range_excludes_null :
    (∀ (df : List DRow) (lo hi : ℤ) (r : DRow),
        r ∈ dayRangeFilter df lo hi → r.application_day ≠ none)
  ∧ (∀ lo hi : ℤ, dayRangeFilter [wNullDayRow] lo hi = []) := by
  constructor
  · intro df lo hi r hr hnone
    have hp := (List.mem_filter.mp hr).2
    rw [hnone] at hp
    simp at hp
  · intro lo hi
    rfl

/-- Witness for C10: a day-2 row survives the range [1, 3] and the theorem
yields that its day cell is non-null. -/
theorem day_range_excludes_null_witness : wRow1.application_day ≠ none :=
  day_range_excludes_null.1 [wRow1] 1 3 wRow1
    (List.mem_filter.mpr ⟨List.mem_singleton.mpr rfl, by decide⟩)

/-- Claim C1: every normalized row's department is one of the 24 declared
taxonomy labels or the fallback, whether or not the `programme_name`
column is present; `allDepartments` lists those 24 labels plus
`"Other"`.  The field is total (a `String`, never null) and the theorem
quantifies over rows surviving duplicate removal, so the invariant is
preserved by that step. -/
theorem normalized_department_in_taxonomy (hasProg : Bool) (rows : List RawRow)
    (r : NormRow) (hr : r ∈ normalizeRows hasProg rows) :
    r.department ∈ allDepartments ∧ allDepartments.length = 25 := by
  refine ⟨?_, rfl⟩
  have h1 : r ∈ rows.map (assignDepartment hasProg) :=
    mem_of_mem_drop_duplicates _ r hr
  obtain ⟨raw, _, rfl⟩ := List.mem_map.mp h1
  by_cases h : hasProg
  · simpa [assignDepartment, h] using categorize_mem raw.programme_name
  · simp only [assignDepartment, h, if_false, Bool.false_eq_true]
    exact List.mem_append_right _ (List.mem_singleton.mpr rfl)

/-- Witness for C1: normalizing a one-row dataset containing
"Bachelor of Nursing". -/
theorem normalized_department_in_taxonomy_witness :
    (⟨some "Bachelor of Nursing", [], "Health Sciences"⟩ : NormRow).department ∈ allDepartments
      ∧ allDepartments.length = 25 :=
  normalized_department_in_taxonomy true [⟨some "Bachelor of Nursing", []⟩]
    ⟨some "Bachelor of Nursing", [], "Health Sciences"⟩ (by decide)

/-- Claim C2: the classifier lower-cases its input and scans the taxonomy
pairs in declared order, returning the first pair with a substring match
(`find?` over the declared list); the crafted name
"Bachelor of Nutrition and Food Engineering" contains a Health Sciences
keyword ("nutrition") and an Engineering keyword ("engineering"), and
resolves to "Health Sciences", the earlier-declared label. -/
theorem classifier_first_match_order :
    (∀ pn : String,
        categorize_programme (some pn) =
          ((taxonomy.find?
                (fun p => p.1.any (fun k => containsSub k.toList (lowerStr pn.toList)))).map
              Prod.snd).getD "Other")
  ∧ containsSub "nutrition".toList
      (lowerStr "Bachelor of Nutrition and Food Engineering".toList) = true
  ∧ containsSub "engineering".toList
      (lowerStr "Bachelor of Nutrition and Food Engineering".toList) = true
  ∧ List.indexOf "Health Sciences" (taxonomy.map Prod.snd)
      < List.indexOf "Engineering" (taxonomy.map Prod.snd)
  ∧ categorize_programme (some "Bachelor of Nutrition and Food Engineering")
      = "Health Sciences" := by
  refine ⟨fun pn => firstMatch_eq_findD taxonomy (lowerStr pn.toList), by decide, by decide,
    by decide, by decide⟩

/-- Claim C7: the classifier returns "Other" for null input, for any
string in which no taxonomy keyword occurs as a substring, and for any
string made of numeric-rendering characters only — the string forms that
non-string (numeric/date) cells take after the code's `str(...)`
coercion. -/
theorem classifier_other_fallback :
    categorize_programme none = "Other"
  ∧ (∀ pn : String,
      (∀ p ∈ taxonomy, ∀ k ∈ p.1, containsSub k.toList (lowerStr pn.toList) = false) →
      categorize_programme (some pn) = "Other")
  ∧ (∀ pn : String, (∀ c ∈ pn.toList, c ∈ numericChars) →
      categorize_programme (some pn) = "Other") := by
  refine ⟨rfl, ?_, ?_⟩
  · intro pn hno
    exact firstMatch_no_match taxonomy (lowerStr pn.toList) hno
  · intro pn hc
    apply firstMatch_no_match taxonomy (lowerStr pn.toList)
    intro p hp k hk
    by_contra hcon
    rw [Bool.not_eq_false] at hcon
    have hsub := containsSub_subset k.toList (lowerStr pn.toList) hcon
    obtain ⟨c0, hc0k, hc0n⟩ := keywords_not_numeric p hp k hk
    have hc0low : c0 ∈ lowerStr pn.toList := hsub c0 hc0k
    obtain ⟨d, hd, hdl⟩ := List.mem_map.mp hc0low
    have hdn : d ∈ numericChars := hc d hd
    rw [numeric_toLower_fixed d hdn] at hdl
    exact hc0n (hdl ▸ hdn)

/-- Witness for C7: a keyword-free string and a numeric-looking string
both classify to "Other". -/
theorem classifier_other_fallback_witness :
    categorize_programme (some "zzz") = "Other"
      ∧ categorize_programme (some "123.0") = "Other" :=
  ⟨classifier_other_fallback.2.1 "zzz" (by decide),
   classifier_other_fallback.2.2 "123.0" (by decide)⟩

/-- Claim C6: `application_day` parsing extracts the first run of digits
(null when the string has no digit), the example column
["Day 1", "day 2", "D3", "bogus"] parses to [1, 2, 3, null], and every
parsed value is a whole number (denominator 1 at the float stage), so the
`Int64` cast condition always holds and no trailing-`.0` float column
survives. -/
theorem application_day_parse_ok :
    ([("Day 1" : String), "day 2", "D3", "bogus"].map (fun s => parseDay s.toList)
        = [some 1, some 2, some 3, none])
  ∧ (∀ s : Str, (parseDay s = none ↔ s.all (fun c => !(c.isDigit)) = true))
  ∧ (∀ raw : List Str,
      ((raw.map parseDayQ).all (fun o => o.all (fun q => q.den == 1))) = true) := by
  refine ⟨by decide, ?_, ?_⟩
  · intro s
    rw [parseDay]
    cases hf : firstDigitRun s with
    | none => simpa [hf] using (firstDigitRun_none_iff s).mp hf
    | some d =>
      constructor
      · intro h; exact absurd h (by simp)
      · intro h
        have := (firstDigitRun_none_iff s).mpr h
        rw [hf] at this
        exact absurd this (by simp)
  · intro raw
    rw [List.all_eq_true]
    intro o ho
    obtain ⟨s, _, rfl⟩ := List.mem_map.mp ho
    exact parseDayQ_den_one s

/-- Claim C5: the dense reindex over selected categories C and observed
days D yields exactly |D| × |C| rows; every (day, category) pair of the
product that is absent from the raw grouped counts carries count 0; and
(for duplicate-free day and category lists, as produced by
`sorted(unique)` and the top-N index) the result has exactly one row per
pair. -/
theorem dense_reindex_ok :
    (∀ (grouped : List ((ℤ × String) × ℕ)) (days : List ℤ) (cats : List String),
        (denseReindex grouped days cats).length = days.length * cats.length)
  ∧ (∀ (grouped : List ((ℤ × String) × ℕ)) (days : List ℤ) (cats : List String)
        (d : ℤ) (c : String), d ∈ days → c ∈ cats →
        (d, c) ∉ grouped.map Prod.fst → ((d, c), 0) ∈ denseReindex grouped days cats)
  ∧ (∀ (grouped : List ((ℤ × String) × ℕ)) (days : List ℤ) (cats : List String),
        days.Nodup → cats.Nodup →
        ((denseReindex grouped days cats).map Prod.fst).Nodup) := by
  refine ⟨?_, ?_, ?_⟩
  · intro grouped days cats
    induction days with
    | nil => simp [denseReindex]
    | cons d ds ih =>
      rw [denseReindex, List.length_append, List.length_map, ih, List.length_cons]
      ring
  · intro grouped days cats d c hd hc hnot
    induction days with
    | nil => exact absurd hd (List.not_mem_nil d)
    | cons d0 ds ih =>
      rw [denseReindex]
      rcases List.mem_cons.mp hd with rfl | hd2
      · refine List.mem_append_left _ (List.mem_map.mpr ⟨c, hc, ?_⟩)
        rw [lookup_eq_none_of_not_mem_keys (d, c) grouped hnot]
        rfl
      · exact List.mem_append_right _ (ih hd2)
  · intro grouped days cats hdays hcats
    induction days with
    | nil => simp [denseReindex]
    | cons d ds ih =>
      rw [denseReindex, List.map_append, List.map_map]
      have hcomp : (Prod.fst ∘ fun c => ((d, c), (List.lookup (d, c) grouped).getD 0))
          = fun c : String => (d, c) := by
        funext c
        rfl
      rw [hcomp]
      have hdnotin := (List.nodup_cons.mp hdays).1
      have hdstail := (List.nodup_cons.mp hdays).2
      rw [List.nodup_append]
      refine ⟨hcats.map (fun a b hab => (Prod.ext_iff.mp hab).2), ih hdstail, ?_⟩
      intro p hp1 hp2
      obtain ⟨c, _, rfl⟩ := List.mem_map.mp hp1
      exact hdnotin (denseReindex_key_day grouped ds cats (d, c) hp2)

/-- Witness for C5: with grouped counts for (1, "A") only, days [1, 2]
and categories ["A", "B"], the absent pair (2, "B") appears with count
0. -/
theorem dense_reindex_ok_witness :
    ((2, "B"), 0) ∈ denseReindex [((1, "A"), 5)] [1, 2] ["A", "B"] :=
  dense_reindex_ok.2.1 [((1, "A"), 5)] [1, 2] ["A", "B"] 2 "B"
    (by decide) (by decide) (by decide)

/-- Claim C3: the percentage transform never divides by zero on the count
tables it is applied to.  When the total is zero the guarded transform
sets every percentage to 0; when the total is positive the emitted
percentages sum to 100 up to the rounding tolerance of length/200 (each
entry is rounded to two decimals, so off by at most 1/200); and on any
`value_counts` table (the shape fed to the unguarded sites: mean grade,
placement cycle, application stage) the unguarded transform agrees with
the guarded one — a zero total forces an empty table there, so the
division is never reached. -/
theorem percentage_transform_ok :
    (∀ rows : List (String × ℕ), totalCount rows = 0 →
        addPercentage rows = rows.map (fun r => (r.1, r.2, (0 : ℚ))))
  ∧ (∀ rows : List (String × ℕ), 0 < totalCount rows →
        |((addPercentage rows).map (fun e => e.2.2)).sum - 100|
          ≤ (rows.length : ℚ) / 200)
  ∧ (∀ l : List String,
        addPercentageUnguarded (value_counts l) = some (addPercentage (value_counts l))) := by
  refine ⟨?_, ?_, ?_⟩
  · intro rows h
    rw [addPercentage, if_pos h]
  · intro rows hT
    rw [addPercentage, if_neg (Nat.pos_iff_ne_zero.mp hT)]
    rw [List.map_map]
    have hcomp : ((fun e : String × ℕ × ℚ => e.2.2)
          ∘ fun r : String × ℕ => (r.1, r.2, (pctHundredths r.2 (totalCount rows) : ℚ) / 100))
        = fun r : String × ℕ => (pctHundredths r.2 (totalCount rows) : ℚ) / 100 := by
      funext r
      rfl
    rw [hcomp]
    have hsum := exact_pct_sum rows hT
    have hclose := sum_abs_sub_le
      (fun r : String × ℕ => (pctHundredths r.2 (totalCount rows) : ℚ) / 100)
      (fun r : String × ℕ => (r.2 : ℚ) / (totalCount rows : ℚ) * 100)
      (1 / 200) rows (fun r _ => pct_term_close r.2 (totalCount rows) hT)
    rw [hsum] at hclose
    calc |((rows.map fun r => (pctHundredths r.2 (totalCount rows) : ℚ) / 100)).sum - 100|
        ≤ rows.length * (1 / 200) := hclose
      _ = (rows.length : ℚ) / 200 := by ring
  · intro l
    by_cases hT : totalCount (value_counts l) = 0
    · rw [totalCount_zero_nil l hT]
      rfl
    · rw [addPercentageUnguarded, if_neg (fun hc => hT hc.1), addPercentage, if_neg hT]

/-- Witness for C3: a zero-total table gets all-zero percentages; a
nonzero-total table of counts 1 and 2 has percentages summing to 100
within 2/200; and the unguarded transform agrees with the guarded one on
the value-counts table of ["x", "x", "y"]. -/
theorem percentage_transform_ok_witness :
    (addPercentage [("A", 0)] = [("A", 0)].map (fun r => (r.1, r.2, (0 : ℚ))))
  ∧ |((addPercentage [("A", 1), ("B", 2)]).map (fun e => e.2.2)).sum - 100|
      ≤ (([("A", 1), ("B", 2)] : List (String × ℕ)).length : ℚ) / 200
  ∧ addPercentageUnguarded (value_counts ["x", "x", "y"])
      = some (addPercentage (value_counts ["x", "x", "y"])) :=
  ⟨percentage_transform_ok.1 [("A", 0)] (by decide),
   percentage_transform_ok.2.1 [("A", 1), ("B", 2)] (by decide),
   percentage_transform_ok.2.2 ["x", "x", "y"]⟩

/-- Counterexample to claim C8 as stated: the institutions top-N slider
does not admit every N in [1, distinct-group-count].  With 40 distinct
institutions, neither N = 1 (the slider minimum is hard-coded to 3) nor
N = 40 (the maximum is capped at min(30, distinct)) can be requested. -/
theorem topn_clamp_counterexample :
    ¬ instSliderOk 40 1 ∧ ¬ instSliderOk 40 40 :=
  ⟨fun h => absurd h.1 (by decide), fun h => absurd h.2 (by decide)⟩

/-- Claim C8 (amended): top-N over grouped counts yields exactly
min(N, distinct-group-count) groups, each returned group's count at least
every dropped group's count, at both sites; ties are broken by
first-encountered order at the per-department programmes site (`nlargest`
with its default keep-first, the stable `topNGroups`), while the
institutions site (`sort_values` with pandas' unstable default quicksort,
modelled by `descSortSpec`) guarantees no particular order of tied
counts; and the caller-facing slider clamps N to
[3, max(3, min(30, distinct-group-count))] for institutions
(min(50, ·) at the per-department programmes slider), not to
[1, distinct-group-count]. -/
theorem topn_amended (l : List (String × ℕ)) (n : ℕ) :
    (topNGroups n l).length = min n l.length
  ∧ (∀ x ∈ topNGroups n l, ∀ y ∈ (List.insertionSort countDesc l).drop n, y.2 ≤ x.2)
  ∧ (∀ c : ℕ, (List.insertionSort countDesc l).filter (fun y => y.2 == c)
        = l.filter (fun y => y.2 == c))
  ∧ (∀ s : List (String × ℕ), descSortSpec s l →
        (s.take n).length = min n l.length
          ∧ ∀ x ∈ s.take n, ∀ y ∈ s.drop n, y.2 ≤ x.2)
  ∧ (∀ d m : ℕ, instSliderOk d m → 3 ≤ m ∧ m ≤ max (min 30 d) 3) := by
  refine ⟨?_, ?_, fun c => insertionSort_filter_stable c l, ?_, fun d m h => h⟩
  · rw [topNGroups, List.length_take, List.length_insertionSort]
  · intro x hx y hy
    have hs : List.Sorted countDesc (List.insertionSort countDesc l) :=
      List.sorted_insertionSort countDesc l
    rw [← List.take_append_drop n (List.insertionSort countDesc l), List.Sorted,
      List.pairwise_append] at hs
    exact hs.2.2 x hx y hy
  · rintro s ⟨hperm, hsort⟩
    refine ⟨by rw [List.length_take, hperm.length_eq], ?_⟩
    intro x hx y hy
    rw [← List.take_append_drop n s, List.Sorted, List.pairwise_append] at hsort
    exact hsort.2.2 x hx y hy

/-- Witness for C8 (amended): on the table [("a", 1), ("b", 3)] with
N = 1, the kept group ("b", 3) dominates the dropped group ("a", 1), the
result length is min 1 2 at both the stable-sort site and a concrete
descending sort for the institutions site, and N = 5 is admissible for 40
distinct groups. -/
theorem topn_amended_witness :
    (topNGroups 1 [("a", 1), ("b", 3)]).length
        = min 1 ([("a", 1), ("b", 3)] : List (String × ℕ)).length
  ∧ (("a", 1) : String × ℕ).2 ≤ (("b", 3) : String × ℕ).2
  ∧ ([(("b", 3) : String × ℕ), ("a", 1)].take 1).length
        = min 1 ([("a", 1), ("b", 3)] : List (String × ℕ)).length
  ∧ (3 ≤ 5 ∧ 5 ≤ max (min 30 40) 3) :=
  ⟨(topn_amended [("a", 1), ("b", 3)] 1).1,
   (topn_amended [("a", 1), ("b", 3)] 1).2.1 ("b", 3) (by decide) ("a", 1) (by decide),
   ((topn_amended [("a", 1), ("b", 3)] 1).2.2.2.1 [("b", 3), ("a", 1)]
      ⟨by decide, by decide⟩).1,
   (topn_amended [] 0).2.2.2.2 40 5 ⟨by decide, by decide⟩⟩

end Dashboard
